import Mathlib

/-!
Verification of the Juptidu concentrated-liquidity rebalancing engine
(`src/Juptidu/src`), as a shallow embedding in Lean 4.

Conventions of the embedding:
* Python `Decimal` / `float` arithmetic is modelled exactly by `ℚ`.
* Timestamps are modelled as natural numbers counted in minutes; one
  calendar day is 1440 minutes and the calendar-day key `year-dayOfYear`
  of `timestamp_to_key` is modelled by the epoch-day number `ts / 1440`
  (the same partition of the timeline into midnight-aligned days).
* A Python function that can `raise` is embedded as an `Option`-valued
  function, `none` standing for the raised exception.
* The external pool collaborator (demeter's `UniLpMarket`: swaps,
  liquidity minting/burning, tick conversion) is out of scope per the
  spec; its effects enter the embedding as explicit parameters.
-/

/-- Modelled from the spec: the repository's `constants.py` module is not
under `src/`; its two constants are fixed by the spec's formulas
(`r = range_percent/100`), by which `PERCENT_TO_DECIMAL` is `1/100`. -/
def PERCENT_TO_DECIMAL : ℚ := 1 / 100

/-- Modelled from the spec: `ONE` of the missing `constants.py`, the unit
constant used as `ONE + range` in the bound formulas `center/(1+r)`. -/
def ONE : ℚ := 1

/-! ## RangeMath (`utils/strategy_utils.py`) -/

/-- `get_price_change_in_percentage` of `utils/strategy_utils.py`:
returns `0` when either price is zero, otherwise the relative change
in percent. -/
def get_price_change_in_percentage (price_before price_now : ℚ) : ℚ :=
  if price_before = 0 ∨ price_now = 0 then 0
  else
    let price_change := price_now - price_before
    price_change / price_before * 100

/-- `get_lower_upper_price_for_symmetric_range` of
`utils/strategy_utils.py`: `lower = price/(1+r)`, `upper = price*(1+r)`
with `r = range_in_percentage/100`. -/
def get_lower_upper_price_for_symmetric_range (range_in_percentage price : ℚ) : ℚ × ℚ :=
  let range : ℚ := PERCENT_TO_DECIMAL * range_in_percentage
  (price / (ONE + range), price * (ONE + range))

/-- Minutes in one day; `timedelta(days=1)` of `is_one_day_or_older`. -/
def minutesPerDay : ℕ := 1440

/-- `timestamp_to_key` of `utils/strategy_utils.py` returns the calendar
day key `f"{year}-{dayofyear}"`; with timestamps in minutes this is the
epoch-day number. -/
def timestamp_to_key (ts : ℕ) : ℕ := ts / minutesPerDay

/-- `is_one_day_or_older` of `utils/strategy_utils.py`:
`current - historical >= timedelta(days=1)`. -/
def is_one_day_or_older (historical_timestamp current_timestamp : ℕ) : Bool :=
  minutesPerDay ≤ current_timestamp - historical_timestamp

/-! ## FeeLedger (`strategies/brokkr_strategy.py`, fee deduction) -/

/-- Result of a successful gas-fee charge: the two spent amounts returned
by `substract_gas_fee` plus the updated broker balances. -/
structure ChargeResult where
  base_spent : ℚ
  quote_spent : ℚ
  base_balance : ℚ
  quote_balance : ℚ
deriving DecidableEq, Repr

/-- `BrokkrStrategy.substract_gas_fee` together with its helpers
`deduct_fee_from_balance`, `substract_gas_fee_on_insufficient_fee_token_amount`,
`pay_remaining_fee_in_quote_token` and `pay_remaining_fee_in_base_token`
(`strategies/brokkr_strategy.py` lines 427-501). `none` is the raised
`Ran out of funds to pay gas fees!` exception. -/
def substract_gas_fee (fee_amount : ℚ) (is_fee_token_base : Bool)
    (base_balance quote_balance current_price : ℚ) : Option ChargeResult :=
  let fee_token_balance := if is_fee_token_base then base_balance else quote_balance
  if fee_token_balance ≥ fee_amount then
    -- deduct_fee_from_balance
    if is_fee_token_base then
      some ⟨fee_amount, 0, base_balance - fee_amount, quote_balance⟩
    else
      some ⟨0, fee_amount, base_balance, quote_balance - fee_amount⟩
  else
    -- substract_gas_fee_on_insufficient_fee_token_amount
    let remaining_fee_to_be_paid := fee_amount - fee_token_balance
    if is_fee_token_base then
      -- pay_remaining_fee_in_quote_token
      let fee_to_be_paid_in_quote_token := remaining_fee_to_be_paid / current_price
      if quote_balance ≥ fee_to_be_paid_in_quote_token then
        some ⟨fee_token_balance, fee_to_be_paid_in_quote_token,
              0, quote_balance - fee_to_be_paid_in_quote_token⟩
      else
        none
    else
      -- pay_remaining_fee_in_base_token
      let fee_to_be_paid_in_base_token := remaining_fee_to_be_paid * current_price
      if base_balance ≥ fee_to_be_paid_in_base_token then
        some ⟨fee_to_be_paid_in_base_token, fee_token_balance,
              base_balance - fee_to_be_paid_in_base_token, 0⟩
      else
        none

example : substract_gas_fee 10 true 4 100 2 = some ⟨4, 3, 0, 97⟩ := by
  norm_num [substract_gas_fee]

example : substract_gas_fee 10 true 4 2 2 = none := by
  norm_num [substract_gas_fee]

/-! ## Displacement check (`BrokkrStrategy.position_range_threshold_reached`) -/

/-- `BrokkrStrategy.position_range_threshold_reached`
(`strategies/brokkr_strategy.py` lines 165-191). The position's bounds
(`get_low_high_borders`, a pure tick conversion by the external market)
and the current price enter as parameters. `none` models the raised
`out of range threshold must be between 0 and 100` exception; note that
the guard is the Python chained comparison
`100 > out_of_range_threshold_up < 0`, that is
`100 > thr ∧ thr < 0`. -/
def position_range_threshold_reached (lower_price upper_price current_price : ℚ)
    (out_of_range_threshold_up out_of_range_threshold_down : ℚ)
    (position_start_price : Option ℚ) : Option Bool :=
  let position_mid_price :=
    match position_start_price with
    | none => (lower_price + upper_price) / 2
    | some p => p
  if (100 > out_of_range_threshold_up ∧ out_of_range_threshold_up < 0) ∨
     (100 > out_of_range_threshold_down ∧ out_of_range_threshold_down < 0) then
    none
  else if position_mid_price = current_price then
    some false
  else if current_price < lower_price ∨ current_price > upper_price then
    some true
  else if current_price > position_mid_price then
    -- price moved up from the mid (start) position price
    let price_displacement_percent_up :=
      (current_price - position_mid_price) / (upper_price - position_mid_price) * 100
    some (price_displacement_percent_up ≥ out_of_range_threshold_up)
  else
    -- price moved down from the mid (start) position price
    let price_displacement_percent_down :=
      (position_mid_price - current_price) / (position_mid_price - lower_price) * 100
    some (price_displacement_percent_down ≥ out_of_range_threshold_down)

example : position_range_threshold_reached 90 110 105 150 50 none = some false := by
  norm_num [position_range_threshold_reached]

example : position_range_threshold_reached 90 110 105 (-1) 50 none = none := by
  norm_num [position_range_threshold_reached]

/-! ## Laddered policies B and C
(`strategies/brokkr_strategy_B.py`, `strategies/brokkr_strategy_C.py`)

The per-bar decision state of `BrokkrStrategyB` / `BrokkrStrategyC`.
`day_to_rebalance_count` is the Python dict with absent keys read as the
`setdefault(key, 0)` default; `max_range_active_since` and
`last_successful_rebalance` use `Timestamp(0)` (here `0`) as the unset
sentinel, exactly as the source does; `rebalances_count` is
`stats.rebalances_count`. Strategy B is the special case `cooldown = 0`
(its `can_rebalance` returns `True`, and `0 ≤ ts - last` always holds);
strategy C passes its `min_time_between_rebalances_in_minutes`. -/
structure LadderState where
  day_to_rebalance_count : ℕ → ℕ
  max_range_active_since : ℕ
  last_successful_rebalance : ℕ
  rebalances_count : ℕ

/-- The tier walk of `BrokkrStrategyB.on_rebalance_needed`: running
cumulative sum of the per-tier caps, first tier whose cumulative cap
exceeds the day's count wins. -/
def choose_range_go (rebalanced_count : ℕ) :
    List ℚ → List ℕ → ℕ → Option ℚ
  | [], _, _ => none
  | _, [], _ => none
  | range :: ranges, m :: ms, max_rebalances_sum =>
      if rebalanced_count < max_rebalances_sum + m then some range
      else choose_range_go rebalanced_count ranges ms (max_rebalances_sum + m)

/-- The `range_for_rebalance` selection loop of `on_rebalance_needed`
(`strategies/brokkr_strategy_B.py` lines 73-81); `none` is the
`range_for_rebalance < 0` "skip" outcome. -/
def choose_range (ranges : List ℚ) (max_rebalances : List ℕ)
    (rebalanced_count : ℕ) : Option ℚ :=
  choose_range_go rebalanced_count ranges max_rebalances 0

/-- `BrokkrStrategyB.on_rebalance_needed`
(`strategies/brokkr_strategy_B.py` lines 69-96). The performed
rebalance (`rebalance_and_add_symmetric_liquidity`) increments
`stats.rebalances_count` once and, through
`on_successful_position_opened`, records the bar's timestamp as the last
successful rebalance (used by strategy C). Returns the new state and
whether a rebalance was performed. -/
def on_rebalance_needed (ranges : List ℚ) (max_rebalances : List ℕ)
    (s : LadderState) (timestamp : ℕ) : LadderState × Bool :=
  let key := timestamp_to_key timestamp
  let rebalanced_count := s.day_to_rebalance_count key
  match choose_range ranges max_rebalances rebalanced_count with
  | none => (s, false)
  | some range_for_rebalance =>
      ({ day_to_rebalance_count :=
           Function.update s.day_to_rebalance_count key (rebalanced_count + 1),
         max_range_active_since :=
           if some range_for_rebalance = ranges.getLast? then timestamp else 0,
         last_successful_rebalance := timestamp,
         rebalances_count := s.rebalances_count + 1 }, true)

/-- `BrokkrStrategyB.handle_current_timestamp`
(`strategies/brokkr_strategy_B.py` lines 54-67): the forced rebalance
back to the narrowest tier once the widest tier has been active for a
day (which also resets the day's counter to 0), else the out-of-range
ladder walk. `out_of_range` is the oracle value of `is_out_of_range`
(a read of the external market's in-position amounts). -/
def handle_current_timestamp (ranges : List ℚ) (max_rebalances : List ℕ)
    (s : LadderState) (timestamp : ℕ) (out_of_range : Bool) : LadderState × Bool :=
  if 0 < s.max_range_active_since ∧
     is_one_day_or_older s.max_range_active_since timestamp then
    ({ day_to_rebalance_count :=
         Function.update s.day_to_rebalance_count (timestamp_to_key timestamp) 0,
       max_range_active_since := 0,
       last_successful_rebalance := timestamp,
       rebalances_count := s.rebalances_count + 1 }, true)
  else if out_of_range then
    on_rebalance_needed ranges max_rebalances s timestamp
  else
    (s, false)

/-- `BrokkrStrategyC.can_rebalance` via `is_older_than`
(`strategies/brokkr_strategy_C.py` lines 54-65):
`current - last ≥ timedelta(minutes=cooldown)`. -/
def can_rebalance (min_time_between_rebalances_in_minutes : ℕ)
    (s : LadderState) (current_timestamp : ℕ) : Bool :=
  min_time_between_rebalances_in_minutes ≤
    current_timestamp - s.last_successful_rebalance

/-- One bar of strategy B/C: `BrokkrStrategyB.on_bar_custom`
(`strategies/brokkr_strategy_B.py` lines 48-52), which returns without
acting unless `can_rebalance()`. -/
def ladder_on_bar (ranges : List ℚ) (max_rebalances : List ℕ) (cooldown : ℕ)
    (s : LadderState) (timestamp : ℕ) (out_of_range : Bool) : LadderState × Bool :=
  if can_rebalance cooldown s timestamp then
    handle_current_timestamp ranges max_rebalances s timestamp out_of_range
  else
    (s, false)

/-- Number of rebalances the strategy performs on bars whose calendar
day key is `d`, over a run of bars `(timestamp, out_of_range)`. -/
def rebalances_in_day (ranges : List ℚ) (max_rebalances : List ℕ)
    (cooldown d : ℕ) : LadderState → List (ℕ × Bool) → ℕ
  | _, [] => 0
  | s, (timestamp, out_of_range) :: bars =>
      let step := ladder_on_bar ranges max_rebalances cooldown s timestamp out_of_range
      (if step.2 ∧ timestamp_to_key timestamp = d then 1 else 0) +
        rebalances_in_day ranges max_rebalances cooldown d step.1 bars

/-- Bar timestamps are fed to the strategy in non-decreasing order
(the runner's contract: `current_timestamp()` is monotone), starting at
or after `t0`. -/
def timestamps_ascending : ℕ → List (ℕ × Bool) → Prop
  | _, [] => True
  | t0, (timestamp, _) :: bars => t0 ≤ timestamp ∧ timestamps_ascending timestamp bars

/-- The state of `BrokkrStrategyB`/`C` at the start of a run: empty
rebalance-count dict, both timestamp sentinels `Timestamp(0)`, zero
stats counter. -/
def initialLadderState : LadderState :=
  { day_to_rebalance_count := fun _ => 0
    max_range_active_since := 0
    last_successful_rebalance := 0
    rebalances_count := 0 }

/-- Reachability invariant of the ladder machine used to bound the
rebalances performed in calendar day `d`. Here `n` is the number of
rebalances already performed in day `d`, and `t0` an upper bound on all
timestamps processed so far. -/
def LadderInv (caps_sum d n t0 : ℕ) (s : LadderState) : Prop :=
  (∀ k, s.day_to_rebalance_count k ≤ caps_sum) ∧
  n ≤ s.day_to_rebalance_count d + 1 ∧
  (0 < s.max_range_active_since →
    n = 0 ∨ d ≤ timestamp_to_key s.max_range_active_since) ∧
  (0 < n → d ≤ timestamp_to_key t0)

lemma choose_range_go_lt_sum (c : ℕ) :
    ∀ (ranges : List ℚ) (ms : List ℕ) (acc : ℕ) (r : ℚ),
      choose_range_go c ranges ms acc = some r → c < acc + ms.sum := by
  intro ranges
  induction ranges with
  | nil => intro ms acc r h; simp [choose_range_go] at h
  | cons range rest ih =>
      intro ms acc r h
      cases ms with
      | nil => simp [choose_range_go] at h
      | cons m ms' =>
          rw [choose_range_go] at h
          by_cases hc : c < acc + m
          · simp [hc] at h
            have : m ≤ (m :: ms').sum := by simp
            omega
          · simp [hc] at h
            have := ih ms' (acc + m) r h
            simp [List.sum_cons]
            omega

lemma choose_range_lt_sum {ranges : List ℚ} {ms : List ℕ} {c : ℕ} {r : ℚ}
    (h : choose_range ranges ms c = some r) : c < ms.sum := by
  have := choose_range_go_lt_sum c ranges ms 0 r h
  omega

lemma timestamp_to_key_mono {a b : ℕ} (h : a ≤ b) :
    timestamp_to_key a ≤ timestamp_to_key b :=
  Nat.div_le_div_right h

/-- The key step fact: when the widest-tier forced branch fires at
`timestamp`, the recorded `max_range_active_since` lies in a strictly
earlier calendar day. -/
lemma forced_key_lt {since timestamp : ℕ}
    (h : minutesPerDay ≤ timestamp - since) :
    timestamp_to_key since < timestamp_to_key timestamp := by
  have hle : since + minutesPerDay ≤ timestamp := by
    unfold minutesPerDay at *; omega
  have h1 : timestamp_to_key since + 1 ≤ timestamp_to_key (since + minutesPerDay) := by
    unfold timestamp_to_key minutesPerDay
    omega
  have h2 := timestamp_to_key_mono hle
  omega


lemma rebalances_in_day_cons (ranges : List ℚ) (max_rebalances : List ℕ)
    (cooldown d : ℕ) (s s' : LadderState) (b : Bool) (ts : ℕ) (oor : Bool)
    (bars : List (ℕ × Bool))
    (hL : ladder_on_bar ranges max_rebalances cooldown s ts oor = (s', b)) :
    rebalances_in_day ranges max_rebalances cooldown d s ((ts, oor) :: bars) =
      (if b ∧ timestamp_to_key ts = d then 1 else 0) +
        rebalances_in_day ranges max_rebalances cooldown d s' bars := by
  rw [rebalances_in_day, hL]


lemma ladder_day_bound_aux (ranges : List ℚ) (max_rebalances : List ℕ)
    (cooldown d : ℕ) :
    ∀ (bars : List (ℕ × Bool)) (s : LadderState) (n t0 : ℕ),
      LadderInv max_rebalances.sum d n t0 s →
      timestamps_ascending t0 bars →
      n + rebalances_in_day ranges max_rebalances cooldown d s bars ≤
        max_rebalances.sum + 1 := by
  intro bars
  induction bars with
  | nil =>
      intro s n t0 hinv _
      obtain ⟨h1, h2, _, _⟩ := hinv
      have := h1 d
      simp only [rebalances_in_day]
      omega
  | cons bar rest ih =>
      intro s n t0 hinv hmono
      obtain ⟨ts, oor⟩ := bar
      obtain ⟨hts, hmono'⟩ := hmono
      obtain ⟨h1, h2, h3, h4⟩ := hinv
      have hkeymono : timestamp_to_key t0 ≤ timestamp_to_key ts :=
        timestamp_to_key_mono hts
      by_cases hgate : can_rebalance cooldown s ts = true
      · by_cases hforced : 0 < s.max_range_active_since ∧
            is_one_day_or_older s.max_range_active_since ts = true
        · -- the forced widest-tier rebalance fires on this bar
          have hstep : ladder_on_bar ranges max_rebalances cooldown s ts oor =
              ({ day_to_rebalance_count :=
                   Function.update s.day_to_rebalance_count (timestamp_to_key ts) 0,
                 max_range_active_since := 0,
                 last_successful_rebalance := ts,
                 rebalances_count := s.rebalances_count + 1 }, true) := by
            rw [ladder_on_bar, if_pos hgate, handle_current_timestamp, if_pos hforced]
          rw [rebalances_in_day_cons _ _ _ _ _ _ _ _ _ _ hstep]
          by_cases hd : timestamp_to_key ts = d
          · -- forced rebalance within day d: it is the first rebalance of day d
            have hkey : timestamp_to_key s.max_range_active_since <
                timestamp_to_key ts :=
              forced_key_lt (by simpa [is_one_day_or_older] using hforced.2)
            have hn0 : n = 0 := by
              rcases h3 hforced.1 with h | h
              · exact h
              · omega
            have hrec := ih
              { day_to_rebalance_count :=
                  Function.update s.day_to_rebalance_count (timestamp_to_key ts) 0,
                max_range_active_since := 0,
                last_successful_rebalance := ts,
                rebalances_count := s.rebalances_count + 1 }
              1 ts
              (by
                refine ⟨?_, ?_, ?_, ?_⟩
                · intro k
                  by_cases hk : k = timestamp_to_key ts
                  · subst hk
                    simp only [Function.update_same]
                    omega
                  · simp only [Function.update_noteq hk]
                    exact h1 k
                · omega
                · simp
                · intro _
                  omega)
              hmono'
            have hif : (if true ∧ timestamp_to_key ts = d then 1 else 0) = 1 := by
              simp [hd]
            omega
          · -- forced rebalance in a different calendar day
            have hrec := ih
              { day_to_rebalance_count :=
                  Function.update s.day_to_rebalance_count (timestamp_to_key ts) 0,
                max_range_active_since := 0,
                last_successful_rebalance := ts,
                rebalances_count := s.rebalances_count + 1 }
              n ts
              (by
                refine ⟨?_, ?_, ?_, ?_⟩
                · intro k
                  by_cases hk : k = timestamp_to_key ts
                  · subst hk
                    simp only [Function.update_same]
                    omega
                  · simp only [Function.update_noteq hk]
                    exact h1 k
                · simp only [Function.update_noteq (Ne.symm hd)]
                  exact h2
                · simp
                · intro hn
                  exact le_trans (h4 hn) hkeymono)
              hmono'
            have hif : (if true ∧ timestamp_to_key ts = d then 1 else 0) = 0 := by
              simp [hd]
            omega
        · -- no forced rebalance on this bar
          by_cases hoor : oor = true
          · rcases hchoose : choose_range ranges max_rebalances
                (s.day_to_rebalance_count (timestamp_to_key ts)) with _ | r
            · -- tier caps for the day exhausted: skip
              have hstep : ladder_on_bar ranges max_rebalances cooldown s ts oor =
                  (s, false) := by
                rw [ladder_on_bar, if_pos hgate, handle_current_timestamp,
                  if_neg hforced, if_pos hoor, on_rebalance_needed]
                simp only [hchoose]
              rw [rebalances_in_day_cons _ _ _ _ _ _ _ _ _ _ hstep]
              have hrec := ih s n ts
                ⟨h1, h2, h3, fun hn => le_trans (h4 hn) hkeymono⟩ hmono'
              have hif : (if false ∧ timestamp_to_key ts = d then 1 else 0) = 0 := by
                simp
              omega
            · -- a ladder rebalance is performed on this bar
              have hstep : ladder_on_bar ranges max_rebalances cooldown s ts oor =
                  ({ day_to_rebalance_count :=
                       Function.update s.day_to_rebalance_count (timestamp_to_key ts)
                         (s.day_to_rebalance_count (timestamp_to_key ts) + 1),
                     max_range_active_since :=
                       if some r = ranges.getLast? then ts else 0,
                     last_successful_rebalance := ts,
                     rebalances_count := s.rebalances_count + 1 }, true) := by
                rw [ladder_on_bar, if_pos hgate, handle_current_timestamp,
                  if_neg hforced, if_pos hoor, on_rebalance_needed]
                simp only [hchoose]
              rw [rebalances_in_day_cons _ _ _ _ _ _ _ _ _ _ hstep]
              have hcount := choose_range_lt_sum hchoose
              by_cases hd : timestamp_to_key ts = d
              · have hrec := ih
                  { day_to_rebalance_count :=
                      Function.update s.day_to_rebalance_count (timestamp_to_key ts)
                        (s.day_to_rebalance_count (timestamp_to_key ts) + 1),
                    max_range_active_since :=
                      if some r = ranges.getLast? then ts else 0,
                    last_successful_rebalance := ts,
                    rebalances_count := s.rebalances_count + 1 }
                  (n + 1) ts
                  (by
                    refine ⟨?_, ?_, ?_, ?_⟩
                    · intro k
                      by_cases hk : k = timestamp_to_key ts
                      · subst hk
                        simp only [Function.update_same]
                        omega
                      · simp only [Function.update_noteq hk]
                        exact h1 k
                    · subst hd
                      simp only [Function.update_same]
                      omega
                    · intro hpos
                      by_cases hlast : some r = ranges.getLast?
                      · simp only [if_pos hlast]
                        right
                        omega
                      · simp only [if_neg hlast] at hpos
                        omega
                    · intro _
                      omega)
                  hmono'
                have hif : (if true ∧ timestamp_to_key ts = d then 1 else 0) = 1 := by
                  simp [hd]
                rw [hd] at hcount
                omega
              · have hrec := ih
                  { day_to_rebalance_count :=
                      Function.update s.day_to_rebalance_count (timestamp_to_key ts)
                        (s.day_to_rebalance_count (timestamp_to_key ts) + 1),
                    max_range_active_since :=
                      if some r = ranges.getLast? then ts else 0,
                    last_successful_rebalance := ts,
                    rebalances_count := s.rebalances_count + 1 }
                  n ts
                  (by
                    refine ⟨?_, ?_, ?_, ?_⟩
                    · intro k
                      by_cases hk : k = timestamp_to_key ts
                      · subst hk
                        simp only [Function.update_same]
                        omega
                      · simp only [Function.update_noteq hk]
                        exact h1 k
                    · simp only [Function.update_noteq (Ne.symm hd)]
                      exact h2
                    · intro hpos
                      by_cases hlast : some r = ranges.getLast?
                      · simp only [if_pos hlast]
                        rcases Nat.eq_zero_or_pos n with h0 | hnpos
                        · exact Or.inl h0
                        · exact Or.inr (le_trans (h4 hnpos) hkeymono)
                      · simp only [if_neg hlast] at hpos
                        omega
                    · intro hn
                      exact le_trans (h4 hn) hkeymono)
                  hmono'
                have hif : (if true ∧ timestamp_to_key ts = d then 1 else 0) = 0 := by
                  simp [hd]
                omega
          · -- in range and no forced rebalance: nothing happens
            have hstep : ladder_on_bar ranges max_rebalances cooldown s ts oor =
                (s, false) := by
              rw [ladder_on_bar, if_pos hgate, handle_current_timestamp,
                if_neg hforced, if_neg hoor]
            rw [rebalances_in_day_cons _ _ _ _ _ _ _ _ _ _ hstep]
            have hrec := ih s n ts
              ⟨h1, h2, h3, fun hn => le_trans (h4 hn) hkeymono⟩ hmono'
            have hif : (if false ∧ timestamp_to_key ts = d then 1 else 0) = 0 := by
              simp
            omega
      · -- strategy C's cooldown gate blocks the bar entirely
        have hstep : ladder_on_bar ranges max_rebalances cooldown s ts oor =
            (s, false) := by
          rw [ladder_on_bar, if_neg hgate]
        rw [rebalances_in_day_cons _ _ _ _ _ _ _ _ _ _ hstep]
        have hrec := ih s n ts
          ⟨h1, h2, h3, fun hn => le_trans (h4 hn) hkeymono⟩ hmono'
        have hif : (if false ∧ timestamp_to_key ts = d then 1 else 0) = 0 := by
          simp
        omega

/-- C4 (amended): over every run with monotone bar timestamps and every
calendar day, the ladder policies B and C perform at most the sum of the
configured per-tier rebalance caps PLUS ONE rebalances within that day.
The extra one is the widest-tier-active-for-24h forced rebalance, which
is not counted against (and resets) the day's counter; the per-day
counter itself never exceeds the caps' sum. -/
theorem ladder_rebalances_per_day_bounded
    (ranges : List ℚ) (max_rebalances : List ℕ) (cooldown d : ℕ)
    (bars : List (ℕ × Bool)) (hmono : timestamps_ascending 0 bars) :
    rebalances_in_day ranges max_rebalances cooldown d initialLadderState bars ≤
      max_rebalances.sum + 1 := by
  have h := ladder_day_bound_aux ranges max_rebalances cooldown d bars
    initialLadderState 0 0
    (by
      refine ⟨fun k => Nat.zero_le _, Nat.zero_le _, ?_, ?_⟩
      · intro h
        simp [initialLadderState] at h
      · omega)
    hmono
  omega

theorem ladder_rebalances_per_day_bounded_witness :
    timestamps_ascending 0 [(1, true)] ∧
    rebalances_in_day [2] [1] 0 0 initialLadderState [(1, true)] ≤
      ([1] : List ℕ).sum + 1 :=
  ⟨⟨Nat.zero_le 1, trivial⟩,
   ladder_rebalances_per_day_bounded [2] [1] 0 0 [(1, true)] ⟨Nat.zero_le 1, trivial⟩⟩

/-- C4 (counterexample): with a single tier of range 2% capped at 1
rebalance per day (`ranges = [2]`, `max_rebalances = [1]`, caps sum 1),
the run 1500, 2000, 2940, 3000 (minutes; all bars out of range) performs
2 rebalances on calendar day 2: the forced widest-tier rebalance at
minute 2940 (24h after the widest tier became active at minute 1500)
resets the day counter and is followed by a counted ladder rebalance at
minute 3000, exceeding the caps' sum. -/
theorem ladder_day_cap_counterexample :
    ¬ rebalances_in_day [2] [1] 0 2 initialLadderState
        [(1500, true), (2000, true), (2940, true), (3000, true)] ≤
      ([1] : List ℕ).sum := by
  decide

/-- C8: strategy C performs no rebalance within the cooldown window:
on any bar whose timestamp is less than
`min_time_between_rebalances_in_minutes` after the last successful
rebalance (position opening), `on_bar_custom` does nothing — the state,
including the `stats.rebalances_count` counter, is unchanged and no
rebalance is reported. -/
theorem strategyC_cooldown_blocks_rebalance
    (ranges : List ℚ) (max_rebalances : List ℕ) (cooldown : ℕ)
    (s : LadderState) (ts : ℕ) (oor : Bool)
    (hcool : 0 < cooldown)
    (hwithin : ts < s.last_successful_rebalance + cooldown) :
    ladder_on_bar ranges max_rebalances cooldown s ts oor = (s, false) := by
  rw [ladder_on_bar, if_neg]
  simp only [can_rebalance, decide_eq_true_eq]
  omega

theorem strategyC_cooldown_blocks_rebalance_witness :
    0 < 60 ∧ 120 < 100 + 60 ∧
    ladder_on_bar [2] [1] 60
      ({ day_to_rebalance_count := fun _ => 0, max_range_active_since := 0,
         last_successful_rebalance := 100, rebalances_count := 0 } : LadderState)
      120 true =
      (({ day_to_rebalance_count := fun _ => 0, max_range_active_since := 0,
          last_successful_rebalance := 100, rebalances_count := 0 } : LadderState), false) :=
  ⟨by omega, by omega,
   strategyC_cooldown_blocks_rebalance [2] [1] 60 _ 120 true (by omega) (by decide)⟩

/-- C1: fee charging splits the payment across both balances exactly as
specified. With a positive current price: if the fee-token balance
covers the amount it is deducted from that balance only, returning
`(amount, 0)` or `(0, amount)` according to which token is the fee
token; otherwise the whole fee-token balance is spent (set to 0) and the
remaining shortfall is converted at the current price — `shortfall /
price` when the fee token is the base token, `shortfall * price` when it
is the quote token — and deducted from the other balance. In particular
`fee_token = base, amount = 10, base_balance = 4, price = 2,
quote_balance = 100` yields `base_spent = 4` and `quote_spent = 3`. -/
theorem substract_gas_fee_split
    (fee_amount base_balance quote_balance current_price : ℚ)
    (hp : 0 < current_price) :
    (fee_amount ≤ base_balance →
      substract_gas_fee fee_amount true base_balance quote_balance current_price =
        some ⟨fee_amount, 0, base_balance - fee_amount, quote_balance⟩) ∧
    (fee_amount ≤ quote_balance →
      substract_gas_fee fee_amount false base_balance quote_balance current_price =
        some ⟨0, fee_amount, base_balance, quote_balance - fee_amount⟩) ∧
    (base_balance < fee_amount →
      (fee_amount - base_balance) / current_price ≤ quote_balance →
      substract_gas_fee fee_amount true base_balance quote_balance current_price =
        some ⟨base_balance, (fee_amount - base_balance) / current_price,
              0, quote_balance - (fee_amount - base_balance) / current_price⟩) ∧
    (quote_balance < fee_amount →
      (fee_amount - quote_balance) * current_price ≤ base_balance →
      substract_gas_fee fee_amount false base_balance quote_balance current_price =
        some ⟨(fee_amount - quote_balance) * current_price, quote_balance,
              base_balance - (fee_amount - quote_balance) * current_price, 0⟩) ∧
    substract_gas_fee 10 true 4 100 2 = some ⟨4, 3, 0, 97⟩ := by
  refine ⟨?_, ?_, ?_, ?_, ?_⟩
  · intro h
    simp [substract_gas_fee, h]
  · intro h
    simp [substract_gas_fee, h]
  · intro h1 h2
    have h1' : ¬ base_balance ≥ fee_amount := not_le.mpr h1
    simp [substract_gas_fee, h1', h2]
  · intro h1 h2
    have h1' : ¬ quote_balance ≥ fee_amount := not_le.mpr h1
    simp [substract_gas_fee, h1', h2]
  · norm_num [substract_gas_fee]

theorem substract_gas_fee_split_witness :
    0 < (2 : ℚ) ∧
    substract_gas_fee 10 true 4 100 2 = some ⟨4, 3, 0, 97⟩ :=
  ⟨by norm_num, (substract_gas_fee_split 10 4 100 2 (by norm_num)).2.2.2.2⟩

/-- C2: fee charging is balance-conserving and fails exactly on combined
insufficiency. For nonnegative balances and a positive price, the charge
succeeds precisely when the two balances together, converted at the
current price, cover the amount (expressed in base units:
`amount` when the fee token is base, `amount * price` when it is quote);
and on success `base_spent + quote_spent * price` equals the amount in
those same units. Failure is the raised fatal insufficient-funds
exception (`none`), which nothing in the run catches. -/
theorem substract_gas_fee_conserving
    (fee_amount base_balance quote_balance current_price : ℚ)
    (is_fee_token_base : Bool)
    (hp : 0 < current_price) (hb : 0 ≤ base_balance) (hq : 0 ≤ quote_balance) :
    ((substract_gas_fee fee_amount is_fee_token_base base_balance quote_balance
        current_price).isSome ↔
      (if is_fee_token_base then
        fee_amount ≤ base_balance + quote_balance * current_price
       else
        fee_amount * current_price ≤ base_balance + quote_balance * current_price)) ∧
    (∀ res, substract_gas_fee fee_amount is_fee_token_base base_balance quote_balance
        current_price = some res →
      res.base_spent + res.quote_spent * current_price =
        (if is_fee_token_base then fee_amount else fee_amount * current_price)) := by
  have hp' : current_price ≠ 0 := ne_of_gt hp
  cases is_fee_token_base
  · -- the quote token is the fee token
    by_cases h1 : quote_balance ≥ fee_amount
    · constructor
      · simp [substract_gas_fee, h1]
        have := mul_le_mul_of_nonneg_right h1 hp.le
        linarith
      · intro res hres
        simp [substract_gas_fee, h1] at hres
        subst hres
        simp
    · by_cases h2 : base_balance ≥ (fee_amount - quote_balance) * current_price
      · constructor
        · simp [substract_gas_fee, h1, h2]
          nlinarith
        · intro res hres
          simp [substract_gas_fee, h1, h2] at hres
          subst hres
          simp
          ring
      · constructor
        · simp [substract_gas_fee, h1, h2]
          nlinarith [not_le.mp h2]
        · intro res hres
          simp [substract_gas_fee, h1, h2] at hres
  · -- the base token is the fee token
    by_cases h1 : base_balance ≥ fee_amount
    · constructor
      · simp [substract_gas_fee, h1]
        nlinarith
      · intro res hres
        simp [substract_gas_fee, h1] at hres
        subst hres
        simp
    · by_cases h2 : quote_balance ≥ (fee_amount - base_balance) / current_price
      · constructor
        · simp [substract_gas_fee, h1, h2]
          have h2' := h2
          rw [ge_iff_le, div_le_iff₀ hp] at h2'
          linarith
        · intro res hres
          simp [substract_gas_fee, h1, h2] at hres
          subst hres
          simp
          field_simp
      · constructor
        · simp [substract_gas_fee, h1, h2]
          have h2' : quote_balance < (fee_amount - base_balance) / current_price :=
            not_le.mp h2
          rw [lt_div_iff₀ hp] at h2'
          linarith
        · intro res hres
          simp [substract_gas_fee, h1, h2] at hres
theorem substract_gas_fee_conserving_witness :
    0 < (2 : ℚ) ∧ 0 ≤ (4 : ℚ) ∧ 0 ≤ (100 : ℚ) ∧
    ((substract_gas_fee 10 true 4 100 2).isSome ↔
      (if true then (10 : ℚ) ≤ 4 + 100 * 2 else (10 : ℚ) * 2 ≤ 4 + 100 * 2)) :=
  ⟨by norm_num, by norm_num, by norm_num,
   (substract_gas_fee_conserving 10 4 100 2 true (by norm_num) (by norm_num)
     (by norm_num)).1⟩

/-- C7: the symmetric-range computation returns
`lower = p/(1 + r)` and `upper = p*(1 + r)` with `r = range_percent/100`,
so `lower < p < upper` and `upper/p = p/lower` (log-space symmetry) hold
for every positive center price and positive range percent; in
particular `p = 100, range = 5` gives `lower = 2000/21 ≈ 95.24` and
`upper = 105`. -/
theorem symmetric_range_bounds (price range_in_percentage : ℚ)
    (hp : 0 < price) (hr : 0 < range_in_percentage) :
    ((get_lower_upper_price_for_symmetric_range range_in_percentage price).1 =
      price / (1 + range_in_percentage / 100) ∧
     (get_lower_upper_price_for_symmetric_range range_in_percentage price).2 =
      price * (1 + range_in_percentage / 100)) ∧
    ((get_lower_upper_price_for_symmetric_range range_in_percentage price).1 < price ∧
     price < (get_lower_upper_price_for_symmetric_range range_in_percentage price).2) ∧
    (get_lower_upper_price_for_symmetric_range range_in_percentage price).2 / price =
      price / (get_lower_upper_price_for_symmetric_range range_in_percentage price).1 ∧
    get_lower_upper_price_for_symmetric_range 5 100 = (2000 / 21, 105) := by
  have hden : 0 < 1 + range_in_percentage / 100 := by linarith
  have hden' : (1 : ℚ) + range_in_percentage / 100 ≠ 0 := ne_of_gt hden
  have hp' : price ≠ 0 := ne_of_gt hp
  refine ⟨⟨?_, ?_⟩, ⟨?_, ?_⟩, ?_, ?_⟩
  · simp only [get_lower_upper_price_for_symmetric_range, PERCENT_TO_DECIMAL, ONE]
    ring_nf
  · simp only [get_lower_upper_price_for_symmetric_range, PERCENT_TO_DECIMAL, ONE]
    ring_nf
  · simp only [get_lower_upper_price_for_symmetric_range, PERCENT_TO_DECIMAL, ONE]
    rw [div_lt_iff₀ (by linarith)]
    nlinarith
  · simp only [get_lower_upper_price_for_symmetric_range, PERCENT_TO_DECIMAL, ONE]
    nlinarith
  · simp only [get_lower_upper_price_for_symmetric_range, PERCENT_TO_DECIMAL, ONE]
    have hden2 : (1 : ℚ) + 1 / 100 * range_in_percentage ≠ 0 := by nlinarith
    field_simp
    ring
  · norm_num [get_lower_upper_price_for_symmetric_range, PERCENT_TO_DECIMAL, ONE]

theorem symmetric_range_bounds_witness :
    0 < (100 : ℚ) ∧ 0 < (5 : ℚ) ∧
    ((get_lower_upper_price_for_symmetric_range 5 100).1 < 100 ∧
     100 < (get_lower_upper_price_for_symmetric_range 5 100).2) ∧
    get_lower_upper_price_for_symmetric_range 5 100 = (2000 / 21, 105) :=
  ⟨by norm_num, by norm_num,
   (symmetric_range_bounds 100 5 (by norm_num) (by norm_num)).2.1,
   (symmetric_range_bounds 100 5 (by norm_num) (by norm_num)).2.2.2⟩

/-- C10: the percentage price-change helper is total and guarded against
division by zero: if either price is 0 it returns 0 instead of dividing,
and otherwise it returns `(price_now - price_before)/price_before * 100`. -/
theorem get_price_change_in_percentage_total (price_before price_now : ℚ) :
    ((price_before = 0 ∨ price_now = 0) →
      get_price_change_in_percentage price_before price_now = 0) ∧
    (price_before ≠ 0 → price_now ≠ 0 →
      get_price_change_in_percentage price_before price_now =
        (price_now - price_before) / price_before * 100) := by
  constructor
  · intro h
    simp [get_price_change_in_percentage, h]
  · intro h1 h2
    simp [get_price_change_in_percentage, h1, h2]

theorem get_price_change_in_percentage_total_witness :
    get_price_change_in_percentage 0 5 = 0 ∧
    get_price_change_in_percentage 4 6 = (6 - 4) / 4 * 100 :=
  ⟨(get_price_change_in_percentage_total 0 5).1 (Or.inl rfl),
   (get_price_change_in_percentage_total 4 6).2 (by norm_num) (by norm_num)⟩

/-- C3 (code_bug evaluation): `position_range_threshold_reached` does
NOT raise for the out-of-bounds up-threshold 150: called with bounds
90-110, current price 105 and thresholds up=150, down=50 it returns
normally (`some false`) although its own exception message and the
argument documentation demand thresholds between 0 and 100. The guard
`100 > threshold < 0` (a Python chained comparison) only fires for
negative thresholds. -/
theorem position_range_threshold_reached_accepts_150 :
    position_range_threshold_reached 90 110 105 150 50 none = some false := by
  norm_num [position_range_threshold_reached]

/-! ## Partial-rebalance (divisional) policy
(`strategies/brokkr_strategy_partial_rebalance.py`) -/

/-- `RebalanceDirection` of `models/rebalance_direction.py`. -/
inductive RebalanceDirection where
  | UP
  | DOWN
deriving DecidableEq, Repr

/-- `PriceThreshold` of `strategies/brokkr_strategy_partial_rebalance.py`:
index in the division price-point list, price at which the threshold
sits, and the direction relative to the init price. -/
structure PriceThreshold where
  index : ℕ
  price : ℚ
  rebalance_direction : RebalanceDirection
deriving DecidableEq, Repr

/-- `PartialRebalanceData`: the threshold at which a partial rebalance
happened, the liquidity withdrawn and the withdraw fraction. -/
structure PartialRebalanceData where
  threshold : PriceThreshold
  liquidity_withdrawn : ℚ
  withdraw_percent_decimal : ℚ
deriving DecidableEq, Repr

/-- `PartialRebalancePosition`: the per-position tracking record; the
`position` reference to the market's `Position` is represented by its
liquidity (the only field the policy reads). -/
structure PartialRebalancePosition where
  division_price_points_up : List PriceThreshold
  division_price_points_down : List PriceThreshold
  init_price : ℚ
  last_partial_rebalance : Option PartialRebalanceData
  liquidity : ℚ
deriving DecidableEq, Repr

/-- `BrokkrStrategyPartialRebalance.calculate_withdraw_percent_decimal`
(line 223-224): `(ONE + Decimal(threshold_index)) / Decimal(division)`. -/
def calculate_withdraw_percent_decimal (division : ℕ) (threshold_index : ℕ) : ℚ :=
  (ONE + (threshold_index : ℚ)) / (division : ℚ)

/-- C6: the fraction withdrawn at threshold index `i` equals
`(i+1)/division`; it is strictly increasing in the index, and at the
outermost index `division - 1` it equals exactly 1 (a full withdrawal). -/
theorem withdraw_percent_fraction (division i j : ℕ)
    (hd : 1 ≤ division) (hij : i < j) :
    calculate_withdraw_percent_decimal division i = ((i : ℚ) + 1) / (division : ℚ) ∧
    calculate_withdraw_percent_decimal division i <
      calculate_withdraw_percent_decimal division j ∧
    calculate_withdraw_percent_decimal division (division - 1) = 1 := by
  have hdpos : (0 : ℚ) < (division : ℚ) := by exact_mod_cast hd
  refine ⟨?_, ?_, ?_⟩
  · simp only [calculate_withdraw_percent_decimal, ONE]
    ring_nf
  · simp only [calculate_withdraw_percent_decimal, ONE]
    have hnum : (1 : ℚ) + (i : ℚ) < 1 + (j : ℚ) := by
      have : (i : ℚ) < (j : ℚ) := by exact_mod_cast hij
      linarith
    rw [div_lt_div_iff_of_pos_right hdpos]
    exact hnum
  · simp only [calculate_withdraw_percent_decimal, ONE]
    rw [Nat.cast_sub hd]
    push_cast
    field_simp

theorem withdraw_percent_fraction_witness :
    1 ≤ 4 ∧ 1 < 2 ∧
    calculate_withdraw_percent_decimal 4 1 = ((1 : ℚ) + 1) / (4 : ℚ) ∧
    calculate_withdraw_percent_decimal 4 1 < calculate_withdraw_percent_decimal 4 2 ∧
    calculate_withdraw_percent_decimal 4 (4 - 1) = 1 :=
  ⟨by norm_num, by norm_num,
   by exact_mod_cast (withdraw_percent_fraction 4 1 2 (by norm_num) (by norm_num)).1,
   (withdraw_percent_fraction 4 1 2 (by norm_num) (by norm_num)).2.1,
   (withdraw_percent_fraction 4 1 2 (by norm_num) (by norm_num)).2.2⟩

/-- `BrokkrStrategyPartialRebalance.calculate_division_price_points`
(lines 251-274): for `division` in `1..divisions`, the up point at index
`division - 1` is `price * (ONE + division * (PERCENT_TO_DECIMAL * dtp))`
and the down point is `price / (ONE + division * (PERCENT_TO_DECIMAL *
dtp))`. -/
def calculate_division_price_points (price : ℚ) (divisions : ℕ)
    (division_threshold_percentage : ℚ) :
    List PriceThreshold × List PriceThreshold :=
  ((List.range divisions).map (fun k =>
      ⟨k, price * (ONE + ((k : ℚ) + 1) *
            (PERCENT_TO_DECIMAL * division_threshold_percentage)),
       RebalanceDirection.UP⟩),
   (List.range divisions).map (fun k =>
      ⟨k, price / (ONE + ((k : ℚ) + 1) *
            (PERCENT_TO_DECIMAL * division_threshold_percentage)),
       RebalanceDirection.DOWN⟩))

/-- The upwards `next(...)` search of `get_surpassed_threshold`: first
index whose price is surpassed and whose successor (if any) is not. -/
def find_last_surpassed_up (price : ℚ) : List PriceThreshold → Option PriceThreshold
  | [] => none
  | [t] => if price ≥ t.price then some t else none
  | t :: t' :: rest =>
      if price ≥ t.price ∧ price < t'.price then some t
      else find_last_surpassed_up price (t' :: rest)

/-- The downwards `next(...)` search of `get_surpassed_threshold`. -/
def find_last_surpassed_down (price : ℚ) : List PriceThreshold → Option PriceThreshold
  | [] => none
  | [t] => if price ≤ t.price then some t else none
  | t :: t' :: rest =>
      if price ≤ t.price ∧ price > t'.price then some t
      else find_last_surpassed_down price (t' :: rest)

/-- `BrokkrStrategyPartialRebalance.get_surpassed_threshold`
(lines 226-249). The source unconditionally indexes
`division_price_points_up[0]`; the empty-list cases are unreachable in
the program (`division ≥ 1`). -/
def get_surpassed_threshold (price : ℚ)
    (division_price_points_up division_price_points_down : List PriceThreshold) :
    Option PriceThreshold :=
  match division_price_points_up with
  | [] => none
  | u0 :: _ =>
      if price ≥ u0.price then
        find_last_surpassed_up price division_price_points_up
      else
        match division_price_points_down with
        | [] => none
        | d0 :: _ =>
            if price ≤ d0.price then
              find_last_surpassed_down price division_price_points_down
            else
              none

/-- The decision state of `BrokkrStrategyPartialRebalance`:
`active_partial_rebalance_positions_dict` as an insertion-ordered
association list from `PositionInfo` (a fresh id handed out by the
market, modelled as `ℕ`) to the tracking record. -/
structure PartialRebalanceState where
  active_partial_rebalance_positions_dict : List (ℕ × PartialRebalancePosition)
  next_position_id : ℕ
deriving Repr

/-- `BrokkrStrategyPartialRebalance.partial_rebalance_liquidity`
(lines 151-188): withdraw `calculate_withdraw_percent_decimal(index)` of
the position's liquidity (a full withdrawal deletes the dict entry),
record the surpassed threshold on the position record, rebalance, open a
new position at the current price and track it. The liquidity of the
newly minted position is collaborator-chosen and enters as
`new_position_liquidity`. -/
def partial_rebalance_liquidity (division : ℕ)
    (division_threshold_percentage current_price new_position_liquidity : ℚ)
    (s : PartialRebalanceState) (position_info : ℕ)
    (pos : PartialRebalancePosition) (price_threshold : PriceThreshold) :
    PartialRebalanceState :=
  let withdraw_percent_decimal :=
    calculate_withdraw_percent_decimal division price_threshold.index
  let liquidity_withdraw_amount := pos.liquidity * withdraw_percent_decimal
  -- self.withdraw(market, position_info, int(amount), percent == ONE):
  -- a full withdrawal removes the entry from the dict
  let dict1 :=
    if withdraw_percent_decimal = ONE then
      s.active_partial_rebalance_positions_dict.filter (fun e => e.1 ≠ position_info)
    else
      s.active_partial_rebalance_positions_dict
  -- record the partial rebalance on the (mutable) position record and
  -- the market's reduction of the Position's liquidity by the withdrawn
  -- integer amount
  let dict2 := dict1.map (fun e =>
    if e.1 = position_info then
      (e.1, { e.2 with
                last_partial_rebalance :=
                  some ⟨price_threshold, liquidity_withdraw_amount,
                        withdraw_percent_decimal⟩,
                liquidity := e.2.liquidity - ((⌊liquidity_withdraw_amount⌋ : ℤ) : ℚ) })
    else e)
  -- symmetrical_rebalance + add_liquidity + calculate_division_price_points,
  -- then the new position is tracked
  let points := calculate_division_price_points current_price division
    division_threshold_percentage
  { active_partial_rebalance_positions_dict :=
      dict2 ++ [(s.next_position_id,
        ⟨points.1, points.2, current_price, none, new_position_liquidity⟩)],
    next_position_id := s.next_position_id + 1 }

/-- `BrokkrStrategyPartialRebalance.create_new_symmetric_position`
(lines 198-213): open a symmetric position at `init_price` and track it. -/
def create_new_symmetric_position (division : ℕ)
    (division_threshold_percentage init_price new_position_liquidity : ℚ)
    (s : PartialRebalanceState) : PartialRebalanceState :=
  let points := calculate_division_price_points init_price division
    division_threshold_percentage
  { active_partial_rebalance_positions_dict :=
      s.active_partial_rebalance_positions_dict ++ [(s.next_position_id,
        ⟨points.1, points.2, init_price, none, new_position_liquidity⟩)],
    next_position_id := s.next_position_id + 1 }

/-- `BrokkrStrategyPartialRebalance.collapse_positions_into_single`
(lines 190-196): fully withdraw every tracked position (emptying the
dict) and open one fresh symmetric position at the current price. -/
def collapse_positions_into_single (division : ℕ)
    (division_threshold_percentage current_price new_position_liquidity : ℚ)
    (s : PartialRebalanceState) : PartialRebalanceState :=
  create_new_symmetric_position division division_threshold_percentage
    current_price new_position_liquidity
    { s with active_partial_rebalance_positions_dict := [] }

/-- The `for position_info in list(dict)` loop of
`BrokkrStrategyPartialRebalance.process_active_positions`
(lines 126-149): iterates the snapshot of tracked position ids; on the
first position whose surpassed threshold is new, either collapses (when
the tracked count equals `division`) or partially rebalances and
continues; stops at the first position with no new crossing.
`new_position_liquidity` chooses the collaborator-minted liquidity of
each newly opened position by its id. -/
def process_positions_go (division : ℕ)
    (division_threshold_percentage current_price : ℚ)
    (new_position_liquidity : ℕ → ℚ) :
    PartialRebalanceState → List ℕ → PartialRebalanceState
  | s, [] => s
  | s, position_info :: rest =>
      match s.active_partial_rebalance_positions_dict.find?
          (fun e => e.1 = position_info) with
      | none => s
      | some entry =>
          let partial_rebalance_position := entry.2
          match get_surpassed_threshold current_price
              partial_rebalance_position.division_price_points_up
              partial_rebalance_position.division_price_points_down with
          | some price_threshold =>
              if partial_rebalance_position.last_partial_rebalance.all
                  (fun l => l.threshold != price_threshold) then
                if s.active_partial_rebalance_positions_dict.length = division then
                  collapse_positions_into_single division
                    division_threshold_percentage current_price
                    (new_position_liquidity s.next_position_id) s
                else
                  process_positions_go division division_threshold_percentage
                    current_price new_position_liquidity
                    (partial_rebalance_liquidity division
                      division_threshold_percentage current_price
                      (new_position_liquidity s.next_position_id) s position_info
                      partial_rebalance_position price_threshold)
                    rest
              else s
          | none => s

/-- `BrokkrStrategyPartialRebalance.process_active_positions`: one bar of
the policy, over the snapshot of currently tracked position ids. -/
def process_active_positions (division : ℕ)
    (division_threshold_percentage current_price : ℚ)
    (new_position_liquidity : ℕ → ℚ) (s : PartialRebalanceState) :
    PartialRebalanceState :=
  process_positions_go division division_threshold_percentage current_price
    new_position_liquidity s
    (s.active_partial_rebalance_positions_dict.map (fun e => e.1))

lemma partial_rebalance_liquidity_length_le (division : ℕ)
    (dtp cp liq : ℚ) (s : PartialRebalanceState) (pid : ℕ)
    (pos : PartialRebalancePosition) (t : PriceThreshold) :
    (partial_rebalance_liquidity division dtp cp liq s pid pos
        t).active_partial_rebalance_positions_dict.length ≤
      s.active_partial_rebalance_positions_dict.length + 1 := by
  simp only [partial_rebalance_liquidity, List.length_append, List.length_map]
  split
  · have := List.length_filter_le (fun e => e.1 ≠ pid)
      s.active_partial_rebalance_positions_dict
    simp only [List.length_singleton]
    omega
  · simp

lemma collapse_positions_into_single_length (division : ℕ)
    (dtp cp liq : ℚ) (s : PartialRebalanceState) :
    (collapse_positions_into_single division dtp cp liq
        s).active_partial_rebalance_positions_dict.length = 1 := by
  simp [collapse_positions_into_single, create_new_symmetric_position]

lemma process_positions_go_length (division : ℕ)
    (dtp cp : ℚ) (new_liq : ℕ → ℚ) (hdiv : 1 ≤ division) :
    ∀ (pids : List ℕ) (s : PartialRebalanceState),
      s.active_partial_rebalance_positions_dict.length ≤ division →
      (process_positions_go division dtp cp new_liq s
          pids).active_partial_rebalance_positions_dict.length ≤ division := by
  intro pids
  induction pids with
  | nil =>
      intro s hs
      simpa [process_positions_go] using hs
  | cons pid rest ih =>
      intro s hs
      rw [process_positions_go]
      rcases hfind : s.active_partial_rebalance_positions_dict.find?
          (fun e => e.1 = pid) with _ | entry
      · simp only [hfind]
        exact hs
      · simp only [hfind]
        rcases hthr : get_surpassed_threshold cp
            entry.2.division_price_points_up
            entry.2.division_price_points_down with _ | t
        · simp only [hthr]
          exact hs
        · simp only [hthr]
          by_cases hlast : entry.2.last_partial_rebalance.all
              (fun l => l.threshold != t) = true
          · rw [if_pos hlast]
            by_cases hfull : s.active_partial_rebalance_positions_dict.length =
                division
            · rw [if_pos hfull]
              rw [collapse_positions_into_single_length]
              omega
            · rw [if_neg hfull]
              apply ih
              have := partial_rebalance_liquidity_length_le division dtp cp
                (new_liq s.next_position_id) s pid entry.2 t
              omega
          · rw [if_neg hlast]
            exact hs

/-- C5: the number of concurrently tracked positions in
`active_partial_rebalance_positions_dict` never exceeds `division` after
any bar: whenever a bar starts with at most `division` tracked positions
(`division ≥ 1`), it ends with at most `division`; and the collapse
branch taken when the count has reached `division` and a new threshold
crossing occurs always leaves exactly one freshly opened position. -/
theorem partial_rebalance_count_bounded (division : ℕ)
    (division_threshold_percentage current_price : ℚ)
    (new_position_liquidity : ℕ → ℚ) (s : PartialRebalanceState)
    (hdiv : 1 ≤ division)
    (hs : s.active_partial_rebalance_positions_dict.length ≤ division) :
    (process_active_positions division division_threshold_percentage
        current_price new_position_liquidity
        s).active_partial_rebalance_positions_dict.length ≤ division ∧
    ∀ (s' : PartialRebalanceState) (liq : ℚ),
      (collapse_positions_into_single division division_threshold_percentage
          current_price liq s').active_partial_rebalance_positions_dict.length = 1 := by
  constructor
  · exact process_positions_go_length division division_threshold_percentage
      current_price new_position_liquidity hdiv _ s hs
  · intro s' liq
    exact collapse_positions_into_single_length division
      division_threshold_percentage current_price liq s'

theorem partial_rebalance_count_bounded_witness :
    1 ≤ 2 ∧
    (PartialRebalanceState.mk [] 0).active_partial_rebalance_positions_dict.length ≤ 2 ∧
    (process_active_positions 2 (5 / 2) 100 (fun _ => 1)
        (PartialRebalanceState.mk [] 0)).active_partial_rebalance_positions_dict.length ≤ 2 :=
  ⟨by norm_num, by simp,
   (partial_rebalance_count_bounded 2 (5 / 2) 100 (fun _ => 1)
     (PartialRebalanceState.mk [] 0) (by norm_num) (by simp)).1⟩

/-! ## Operation statistics and the zero-fee mode
(`models/operations_stats.py`, `config/fees.py`,
`strategies/brokkr_strategy.py` lines 72-90 and 321-425) -/

/-- `Fee` of `config/fees.py`: the three per-operation gas-fee rates of
one historical year. -/
structure Fee where
  swap_in : ℚ
  liquidity_providing : ℚ
  removing_liquidity : ℚ
deriving DecidableEq, Repr

/-- `FeesConfiguration` of `models/fees_configuration.py`: the matched
fee token (represented by whether it is the pool's base token) and the
year-to-`Fee` table (`FeeMap`, an association list). -/
structure FeesConfiguration where
  is_token_base : Bool
  fee_rates : List (ℕ × Fee)
deriving DecidableEq, Repr

/-- `BrokkrStrategy.get_fee_rate_for_year`
(`strategies/brokkr_strategy.py` lines 503-510): exact year match, else
the entry of the maximum year key; `none` only on an empty table (a
`KeyError` in the source, never reached with the shipped tables). -/
def get_fee_rate_for_year (fee_rates : List (ℕ × Fee)) (year : ℕ) : Option Fee :=
  match fee_rates.find? (fun e => e.1 = year) with
  | some e => some e.2
  | none =>
      match fee_rates.argmax (fun e => e.1) with
      | some e => some e.2
      | none => none

/-- `OperationsStats` of `models/operations_stats.py`. -/
structure OperationsStats where
  rebalances_count : ℕ
  providing_lp_count : ℕ
  withdrawing_lp_count : ℕ
  rebalances_cost : ℚ
  providing_lp_cost : ℚ
  withdrawing_lp_cost : ℚ
deriving DecidableEq, Repr

/-- The broker's two token balances
(`broker.assets[base].balance` / `broker.assets[quote].balance`). -/
structure Holdings where
  base : ℚ
  quote : ℚ
deriving DecidableEq, Repr

/-- The state the shared strategy primitives touch: broker balances and
the operations statistics. -/
structure StrategyState where
  holdings : Holdings
  stats : OperationsStats
deriving DecidableEq, Repr

/-- One invocation of a shared strategy primitive. Each carries the
bar's year and price, and the external market's effect on the broker
balances (the swap of `even_rebalance`, the amounts used by
`add_liquidity`, the amounts returned by `remove_liquidity`) — the out
of scope collaborator part. -/
inductive MarketOp where
  | rebalance (year : ℕ) (price : ℚ) (market_effect : Holdings → Holdings)
  | provideLiquidity (year : ℕ) (price : ℚ) (market_effect : Holdings → Holdings)
  | removeLiquidity (year : ℕ) (price : ℚ) (market_effect : Holdings → Holdings)

/-- `substract_gas_fee` acting on the broker balances. -/
def charge_gas_fee (cfg : FeesConfiguration) (fee price : ℚ) (h : Holdings) :
    Option Holdings :=
  match substract_gas_fee fee cfg.is_token_base h.base h.quote price with
  | some res => some ⟨res.base_balance, res.quote_balance⟩
  | none => none

/-- The shared primitives `symmetrical_rebalance` (lines 321-330),
`add_liquidity_custom_range` (lines 363-401) and `remove_liquidity`
(lines 411-425) of `strategies/brokkr_strategy.py`: each checks
`self.fees_configuration`, charges the year's gas fee and accumulates
the matching cost field only when a configuration is present, and always
bumps its counter. `remove_liquidity` performs the market removal and
counts before charging, as the source does. -/
def apply_op (fees_configuration : Option FeesConfiguration)
    (s : StrategyState) : MarketOp → Option StrategyState
  | .rebalance year price market_effect =>
      match fees_configuration with
      | none =>
          some { holdings := market_effect s.holdings,
                 stats := { s.stats with
                              rebalances_count := s.stats.rebalances_count + 1 } }
      | some cfg =>
          match get_fee_rate_for_year cfg.fee_rates year with
          | none => none
          | some fee =>
              match charge_gas_fee cfg fee.swap_in price s.holdings with
              | none => none
              | some h' =>
                  some { holdings := market_effect h',
                         stats := { s.stats with
                                      rebalances_cost :=
                                        s.stats.rebalances_cost + fee.swap_in,
                                      rebalances_count :=
                                        s.stats.rebalances_count + 1 } }
  | .provideLiquidity year price market_effect =>
      match fees_configuration with
      | none =>
          some { holdings := market_effect s.holdings,
                 stats := { s.stats with
                              providing_lp_count := s.stats.providing_lp_count + 1 } }
      | some cfg =>
          match get_fee_rate_for_year cfg.fee_rates year with
          | none => none
          | some fee =>
              match charge_gas_fee cfg fee.liquidity_providing price s.holdings with
              | none => none
              | some h' =>
                  some { holdings := market_effect h',
                         stats := { s.stats with
                                      providing_lp_cost :=
                                        s.stats.providing_lp_cost +
                                          fee.liquidity_providing,
                                      providing_lp_count :=
                                        s.stats.providing_lp_count + 1 } }
  | .removeLiquidity year price market_effect =>
      let h1 := market_effect s.holdings
      let stats1 := { s.stats with
                        withdrawing_lp_count := s.stats.withdrawing_lp_count + 1 }
      match fees_configuration with
      | none => some { holdings := h1, stats := stats1 }
      | some cfg =>
          match get_fee_rate_for_year cfg.fee_rates year with
          | none => none
          | some fee =>
              match charge_gas_fee cfg fee.removing_liquidity price h1 with
              | none => none
              | some h2 =>
                  some { holdings := h2,
                         stats := { stats1 with
                                      withdrawing_lp_cost :=
                                        stats1.withdrawing_lp_cost +
                                          fee.removing_liquidity } }

/-- A run of the shared primitives, as the policies invoke them bar by
bar; `none` once any fee charge aborts. -/
def run_ops (fees_configuration : Option FeesConfiguration) :
    StrategyState → List MarketOp → Option StrategyState
  | s, [] => some s
  | s, op :: ops =>
      match apply_op fees_configuration s op with
      | none => none
      | some s' => run_ops fees_configuration s' ops

/-- The fee-free reference fold: only the external market effects touch
the balances. -/
def apply_market_effects (h : Holdings) : List MarketOp → Holdings
  | [] => h
  | .rebalance _ _ market_effect :: ops =>
      apply_market_effects (market_effect h) ops
  | .provideLiquidity _ _ market_effect :: ops =>
      apply_market_effects (market_effect h) ops
  | .removeLiquidity _ _ market_effect :: ops =>
      apply_market_effects (market_effect h) ops

def count_rebalances : List MarketOp → ℕ
  | [] => 0
  | .rebalance _ _ _ :: ops => count_rebalances ops + 1
  | _ :: ops => count_rebalances ops

def count_lp_provides : List MarketOp → ℕ
  | [] => 0
  | .provideLiquidity _ _ _ :: ops => count_lp_provides ops + 1
  | _ :: ops => count_lp_provides ops

def count_lp_removes : List MarketOp → ℕ
  | [] => 0
  | .removeLiquidity _ _ _ :: ops => count_lp_removes ops + 1
  | _ :: ops => count_lp_removes ops

/-- C9: with no fee configuration (`get_fees_configuration` returned
`None`) the run never aborts and degrades to a zero-fee mode: over any
sequence of rebalance / liquidity-providing / liquidity-removal
primitives, the balances are exactly the fold of the external market
effects (no fee deduction ever touches them), the three cumulative cost
fields are unchanged (so they stay 0 for a whole run started at 0), and
only the counters advance. -/
theorem zero_fee_mode_frame (ops : List MarketOp) (s : StrategyState) :
    run_ops none s ops = some
      { holdings := apply_market_effects s.holdings ops,
        stats := { rebalances_count :=
                     s.stats.rebalances_count + count_rebalances ops,
                   providing_lp_count :=
                     s.stats.providing_lp_count + count_lp_provides ops,
                   withdrawing_lp_count :=
                     s.stats.withdrawing_lp_count + count_lp_removes ops,
                   rebalances_cost := s.stats.rebalances_cost,
                   providing_lp_cost := s.stats.providing_lp_cost,
                   withdrawing_lp_cost := s.stats.withdrawing_lp_cost } } := by
  induction ops generalizing s with
  | nil =>
      simp [run_ops, apply_market_effects, count_rebalances, count_lp_provides,
        count_lp_removes]
  | cons op ops ih =>
      cases op with
      | rebalance year price market_effect =>
          rw [run_ops]
          simp only [apply_op]
          rw [ih]
          simp only [apply_market_effects, count_rebalances, count_lp_provides,
            count_lp_removes, Option.some_inj, StrategyState.mk.injEq,
            OperationsStats.mk.injEq, eq_self_iff_true, and_true, true_and]
          omega
      | provideLiquidity year price market_effect =>
          rw [run_ops]
          simp only [apply_op]
          rw [ih]
          simp only [apply_market_effects, count_rebalances, count_lp_provides,
            count_lp_removes, Option.some_inj, StrategyState.mk.injEq,
            OperationsStats.mk.injEq, eq_self_iff_true, and_true, true_and]
          omega
      | removeLiquidity year price market_effect =>
          rw [run_ops]
          simp only [apply_op]
          rw [ih]
          simp only [apply_market_effects, count_rebalances, count_lp_provides,
            count_lp_removes, Option.some_inj, StrategyState.mk.injEq,
            OperationsStats.mk.injEq, eq_self_iff_true, and_true, true_and]
          omega
